import Mathlib

/-!
Verification of the reconciliation and transactional-execution core of
`yamig`, a Postgres migration tool (`src/index.ts`, two revisions of the
same file).  Pure fragments of the TypeScript source are embedded as Lean
functions; database state (the `migration` table) is an explicit list of
rows threaded through the executor.
-/

namespace Yamig

/-- TS `Migration`: a local migration file's parsed id, name, script body
and direction (`up = true` is forward). -/
structure Migration where
  id : Nat
  name : String
  sql : String
  up : Bool
deriving DecidableEq

/-- TS `MigrationRecord`: one row of the `migration` table.  `applied` is
set by the store (`DEFAULT NOW()`); it is annotated `Date`, but slonik's
default type parser delivers `timestamptz` columns as Unix-millisecond
numbers, which is how the field is modelled. -/
structure MigrationRecord where
  id : Nat
  name : String
  applied : Nat
deriving DecidableEq

/-! ### The string record key

Both revisions key the applied-record set by the template literal
`` `${r.id}-${r.name}` ``.  To relate that to the `(id, name)` pair the
spec talks about we prove the encoding injective: the decimal digits of
the id contain no `'-'`, so the first `'-'` splits the key unambiguously,
and the decimal rendering itself is injective (via a decode round trip).
-/

/-- The string key `` `${id}-${name}` `` used for set membership. -/
def recordKey (i : Nat) (name : String) : String :=
  Nat.repr i ++ "-" ++ name

/-- Big-endian decimal decoding of a digit-character list. -/
def decodeDigits (cs : List Char) : Nat :=
  cs.foldl (fun a c => 10 * a + (c.toNat - 48)) 0

theorem digitChar_val {m : Nat} (h : m < 10) :
    (Nat.digitChar m).toNat - 48 = m := by
  interval_cases m <;> rfl

theorem digitChar_isDigit {m : Nat} (h : m < 10) :
    (Nat.digitChar m).isDigit = true := by
  interval_cases m <;> rfl

theorem toDigitsCore_foldl (fuel : Nat) :
    ∀ (n : Nat) (ds : List Char) (a : Nat), n < fuel →
      ∃ k, 0 < k ∧ n < 10 ^ k ∧
        (Nat.toDigitsCore 10 fuel n ds).foldl (fun a c => 10 * a + (c.toNat - 48)) a
          = ds.foldl (fun a c => 10 * a + (c.toNat - 48)) (a * 10 ^ k + n) := by
  induction fuel with
  | zero => intro n ds a h; omega
  | succ fuel ih =>
    intro n ds a h
    by_cases h10 : n / 10 = 0
    · have hn : n < 10 := by omega
      refine ⟨1, by omega, by omega, ?_⟩
      simp only [Nat.toDigitsCore, h10, if_pos]
      simp only [List.foldl_cons]
      rw [digitChar_val (Nat.mod_lt n (by omega))]
      congr 1
      have : n % 10 = n := Nat.mod_eq_of_lt hn
      rw [this]
      ring
    · have hlt : n / 10 < fuel := by
        have h1 : n / 10 < n := Nat.div_lt_self (by omega) (by omega)
        omega
      obtain ⟨k, hk, hb, he⟩ := ih (n / 10) (Nat.digitChar (n % 10) :: ds) a hlt
      refine ⟨k + 1, by omega, ?_, ?_⟩
      · have hmod : n % 10 < 10 := Nat.mod_lt n (by omega)
        have hdecomp : n = 10 * (n / 10) + n % 10 := (Nat.div_add_mod n 10).symm ▸ by omega
        have hpow : 10 ^ (k + 1) = 10 * 10 ^ k := by ring
        omega
      · simp only [Nat.toDigitsCore, h10, if_false]
        rw [he]
        simp only [List.foldl_cons]
        rw [digitChar_val (Nat.mod_lt n (by omega))]
        congr 1
        have hdecomp : 10 * (n / 10) + n % 10 = n := Nat.div_add_mod n 10
        have hpow : 10 ^ (k + 1) = 10 ^ k * 10 := by ring
        rw [hpow]
        ring_nf
        omega

theorem repr_decode (n : Nat) : decodeDigits (Nat.repr n).data = n := by
  obtain ⟨k, _, _, he⟩ := toDigitsCore_foldl (n + 1) n [] 0 (by omega)
  simpa [decodeDigits, Nat.repr, Nat.toDigits, List.asString] using he

theorem toDigitsCore_isDigit (fuel : Nat) :
    ∀ (n : Nat) (ds : List Char), (∀ c ∈ ds, c.isDigit = true) →
      ∀ c ∈ Nat.toDigitsCore 10 fuel n ds, c.isDigit = true := by
  induction fuel with
  | zero => intro n ds hds; simpa [Nat.toDigitsCore] using hds
  | succ fuel ih =>
    intro n ds hds c hc
    have hdigit : ∀ c ∈ (Nat.digitChar (n % 10) :: ds), c.isDigit = true := by
      intro c hc
      rcases List.mem_cons.mp hc with h | h
      · subst h; exact digitChar_isDigit (Nat.mod_lt n (by omega))
      · exact hds c h
    by_cases h10 : n / 10 = 0
    · simp only [Nat.toDigitsCore, h10, if_pos] at hc
      exact hdigit c hc
    · simp only [Nat.toDigitsCore, h10, if_neg] at hc
      exact ih (n / 10) _ hdigit c hc

theorem repr_isDigit (n : Nat) : ∀ c ∈ (Nat.repr n).data, c.isDigit = true := by
  intro c hc
  refine toDigitsCore_isDigit (n + 1) n [] (by simp) c ?_
  simpa [Nat.repr, Nat.toDigits, List.asString] using hc

theorem append_dash_inj :
    ∀ (xs zs ys ws : List Char), (∀ c ∈ xs, c.isDigit = true) →
      (∀ c ∈ zs, c.isDigit = true) →
      xs ++ '-' :: ys = zs ++ '-' :: ws → xs = zs ∧ ys = ws := by
  intro xs
  induction xs with
  | nil =>
    intro zs ys ws _ hz h
    cases zs with
    | nil => simpa using h
    | cons z zs' =>
      simp only [List.nil_append, List.cons_append, List.cons.injEq] at h
      have : z.isDigit = true := hz z (by simp)
      rw [← h.1] at this
      simp [Char.isDigit] at this
  | cons x xs' ih =>
    intro zs ys ws hx hz h
    cases zs with
    | nil =>
      simp only [List.cons_append, List.nil_append, List.cons.injEq] at h
      have : x.isDigit = true := hx x (by simp)
      rw [h.1] at this
      simp [Char.isDigit] at this
    | cons z zs' =>
      simp only [List.cons_append, List.cons.injEq] at h
      obtain ⟨hxz, hrest⟩ := h
      obtain ⟨h1, h2⟩ := ih zs' ys ws (fun c hc => hx c (by simp [hc]))
        (fun c hc => hz c (by simp [hc])) hrest
      exact ⟨by rw [hxz, h1], h2⟩

theorem recordKey_inj {i j : Nat} {n m : String}
    (h : recordKey i n = recordKey j m) : i = j ∧ n = m := by
  have hd : (Nat.repr i).data ++ '-' :: n.data
      = (Nat.repr j).data ++ '-' :: m.data := by
    have hcongr := congrArg String.data h
    simpa [recordKey, String.data_append] using hcongr
  obtain ⟨h1, h2⟩ := append_dash_inj _ _ _ _ (repr_isDigit i) (repr_isDigit j) hd
  constructor
  · have := congrArg decodeDigits h1
    rwa [repr_decode, repr_decode] at this
  · exact String.ext h2

/-! ### `Array.prototype.sort` with a numeric comparator

Both revisions sort work lists with `.sort((a, b) => <numeric>)`.
ECMAScript requires a stable sort; for a consistent comparator the result
is the stable order, produced by the insertion sort that places `x`
before the first `y` with `cmp x y ≤ 0`. -/

variable {α : Type*}

def jsInsert (cmp : α → α → Int) (x : α) : List α → List α
  | [] => [x]
  | y :: ys => if cmp x y ≤ 0 then x :: y :: ys else y :: jsInsert cmp x ys

def jsSort (cmp : α → α → Int) : List α → List α
  | [] => []
  | x :: xs => jsInsert cmp x (jsSort cmp xs)

theorem jsInsert_eq_orderedInsert (cmp : α → α → Int) (r : α → α → Prop)
    [DecidableRel r] (hiff : ∀ a b, cmp a b ≤ 0 ↔ r a b) (x : α) :
    ∀ l, jsInsert cmp x l = List.orderedInsert r x l
  | [] => rfl
  | y :: ys => by
    simp only [jsInsert, List.orderedInsert]
    by_cases h : r x y
    · rw [if_pos ((hiff x y).mpr h), if_pos h]
    · rw [if_neg (fun hc => h ((hiff x y).mp hc)), if_neg h,
        jsInsert_eq_orderedInsert cmp r hiff x ys]

theorem jsSort_eq_insertionSort (cmp : α → α → Int) (r : α → α → Prop)
    [DecidableRel r] (hiff : ∀ a b, cmp a b ≤ 0 ↔ r a b) :
    ∀ l, jsSort cmp l = List.insertionSort r l
  | [] => rfl
  | x :: xs => by
    simp only [jsSort, List.insertionSort]
    rw [jsSort_eq_insertionSort cmp r hiff xs,
      jsInsert_eq_orderedInsert cmp r hiff x]

theorem jsInsert_perm (cmp : α → α → Int) (x : α) :
    ∀ l, (jsInsert cmp x l).Perm (x :: l)
  | [] => List.Perm.refl _
  | y :: ys => by
    simp only [jsInsert]
    by_cases h : cmp x y ≤ 0
    · rw [if_pos h]
    · rw [if_neg h]
      exact (List.Perm.cons y (jsInsert_perm cmp x ys)).trans
        (List.Perm.swap x y ys)

theorem jsSort_perm (cmp : α → α → Int) : ∀ l, (jsSort cmp l).Perm l
  | [] => List.Perm.refl _
  | x :: xs =>
    (jsInsert_perm cmp x (jsSort cmp xs)).trans
      (List.Perm.cons x (jsSort_perm cmp xs))

theorem jsInsert_congr (cmp₁ cmp₂ : α → α → Int)
    (h : ∀ a b, cmp₁ a b = cmp₂ a b) (x : α) :
    ∀ l, jsInsert cmp₁ x l = jsInsert cmp₂ x l
  | [] => rfl
  | y :: ys => by
    simp only [jsInsert, h x y, jsInsert_congr cmp₁ cmp₂ h x ys]

theorem jsSort_congr (cmp₁ cmp₂ : α → α → Int)
    (h : ∀ a b, cmp₁ a b = cmp₂ a b) :
    ∀ l, jsSort cmp₁ l = jsSort cmp₂ l
  | [] => rfl
  | x :: xs => by
    simp only [jsSort, jsSort_congr cmp₁ cmp₂ h xs,
      jsInsert_congr cmp₁ cmp₂ h x]

/-! ### Reconciler: work-list computation

Revision 1 computes `toRun` separately in `cmdUp` (lines 235–239) and
`cmdDown` (lines 272–276); revision 2 unifies both in `migrateAll`
(lines 650–654).  All three build a set of string keys from the applied
records, filter the local migrations by membership, and sort with a
numeric comparator. -/

/-- Revision 2 `migrateAll` work list (lines 650–654):
`localMigrations.filter(m => recordSet.has(key) !== up)
  .sort((a, b) => up ? a.id - b.id : b.id - a.id)`. -/
def migrateAllToRun (localMigrations : List Migration)
    (records : List MigrationRecord) (up : Bool) : List Migration :=
  let recordSet := records.map (fun r => recordKey r.id r.name)
  jsSort
    (fun a b => if up then (a.id : Int) - (b.id : Int)
      else (b.id : Int) - (a.id : Int))
    (localMigrations.filter
      (fun m => (recordSet.contains (recordKey m.id m.name)) != up))

/-- Revision 1 `cmdUp` work list (lines 235–239):
`localMigrations.filter(m => !recordSet.has(key)).sort((a, b) => a.id - b.id)`. -/
def cmdUpToRun (localMigrations : List Migration)
    (records : List MigrationRecord) : List Migration :=
  let recordSet := records.map (fun r => recordKey r.id r.name)
  jsSort (fun a b => (a.id : Int) - (b.id : Int))
    (localMigrations.filter
      (fun m => !(recordSet.contains (recordKey m.id m.name))))

/-- Revision 1 `cmdDown` work list (lines 272–276):
`localMigrations.filter(m => recordSet.has(key)).sort((a, b) => b.id - a.id)`. -/
def cmdDownToRun (localMigrations : List Migration)
    (records : List MigrationRecord) : List Migration :=
  let recordSet := records.map (fun r => recordKey r.id r.name)
  jsSort (fun a b => (b.id : Int) - (a.id : Int))
    (localMigrations.filter
      (fun m => recordSet.contains (recordKey m.id m.name)))

/-- Ascending order by `id` (forward work-list order). -/
def leId (a b : Migration) : Prop := a.id ≤ b.id

/-- Descending order by `id` (backward work-list order). -/
def geId (a b : Migration) : Prop := b.id ≤ a.id

instance : DecidableRel leId := fun a b => inferInstanceAs (Decidable (a.id ≤ b.id))

instance : DecidableRel geId := fun a b => inferInstanceAs (Decidable (b.id ≤ a.id))

instance : IsTotal Migration leId := ⟨fun a b => Nat.le_total a.id b.id⟩

instance : IsTrans Migration leId := ⟨fun _ _ _ => Nat.le_trans⟩

instance : IsTotal Migration geId := ⟨fun a b => Nat.le_total b.id a.id⟩

instance : IsTrans Migration geId := ⟨fun _ _ _ h1 h2 => Nat.le_trans h2 h1⟩

/-- Membership in the string-keyed record set is exactly `(id, name)` pair
membership among the applied records. -/
theorem contains_eq_any (A : List MigrationRecord) (i : Nat) (n : String) :
    (A.map (fun r => recordKey r.id r.name)).contains (recordKey i n)
      = A.any (fun r => r.id == i && r.name == n) := by
  induction A with
  | nil => rfl
  | cons r A ih =>
    simp only [List.map_cons, List.contains_cons, List.any_cons, ih]
    congr 1
    rcases Decidable.em (r.id = i ∧ r.name = n) with h | h
    · obtain ⟨h1, h2⟩ := h
      rw [← h1, ← h2]
      simp
    · have hkey : recordKey i n ≠ recordKey r.id r.name := by
        intro hc
        obtain ⟨h1, h2⟩ := recordKey_inj hc
        exact h ⟨h1.symm, h2.symm⟩
      have hr : (r.id == i && r.name == n) = false := by
        rcases Decidable.em (r.id = i) with h1 | h1
        · rcases Decidable.em (r.name = n) with h2 | h2
          · exact absurd ⟨h1, h2⟩ h
          · simp [h2]
        · simp [h1]
      rw [hr, beq_eq_false_iff_ne.mpr hkey]

theorem asc_cmp_iff (a b : Migration) :
    ((a.id : Int) - (b.id : Int) ≤ 0) ↔ leId a b := by
  unfold leId
  omega

theorem desc_cmp_iff (a b : Migration) :
    ((b.id : Int) - (a.id : Int) ≤ 0) ↔ geId a b := by
  unfold geId
  omega

/-- C1: for every set of local forward migrations `L` and applied records
`A`, the forward (`up`) work list consists of exactly the migrations of
`L` whose `(id, name)` key is absent from the keys of `A`, and it is
sorted ascending by `id`. -/
theorem forward_worklist_correct (L : List Migration) (A : List MigrationRecord) :
    (migrateAllToRun L A true).Perm
        (L.filter (fun m => !(A.any (fun r => r.id == m.id && r.name == m.name))))
      ∧ List.Sorted leId (migrateAllToRun L A true) := by
  have hfilter : L.filter
        (fun m => ((A.map (fun r => recordKey r.id r.name)).contains
            (recordKey m.id m.name)) != true)
      = L.filter (fun m => !(A.any (fun r => r.id == m.id && r.name == m.name))) := by
    refine List.filter_congr ?_
    intro m _
    rw [contains_eq_any, Bool.bne_true]
  have h1 : migrateAllToRun L A true
      = jsSort (fun a b => if (true : Bool) then (a.id : Int) - (b.id : Int)
          else (b.id : Int) - (a.id : Int))
        (L.filter (fun m => ((A.map (fun r => recordKey r.id r.name)).contains
            (recordKey m.id m.name)) != true)) := rfl
  constructor
  · rw [h1, hfilter]
    exact jsSort_perm _ _
  · rw [h1, jsSort_eq_insertionSort _ leId
      (fun a b => by simpa using asc_cmp_iff a b)]
    exact List.sorted_insertionSort leId _

/-- C2: for every set of local backward migrations `L` and applied records
`A`, the backward (`down`) work list consists of exactly the migrations of
`L` whose `(id, name)` key is present among the keys of `A`, and it is
sorted descending by `id`. -/
theorem backward_worklist_correct (L : List Migration) (A : List MigrationRecord) :
    (migrateAllToRun L A false).Perm
        (L.filter (fun m => A.any (fun r => r.id == m.id && r.name == m.name)))
      ∧ List.Sorted geId (migrateAllToRun L A false) := by
  have hfilter : L.filter
        (fun m => ((A.map (fun r => recordKey r.id r.name)).contains
            (recordKey m.id m.name)) != false)
      = L.filter (fun m => A.any (fun r => r.id == m.id && r.name == m.name)) := by
    refine List.filter_congr ?_
    intro m _
    rw [contains_eq_any, Bool.bne_false]
  have h1 : migrateAllToRun L A false
      = jsSort (fun a b => if (false : Bool) then (a.id : Int) - (b.id : Int)
          else (b.id : Int) - (a.id : Int))
        (L.filter (fun m => ((A.map (fun r => recordKey r.id r.name)).contains
            (recordKey m.id m.name)) != false)) := rfl
  constructor
  · rw [h1, hfilter]
    exact jsSort_perm _ _
  · rw [h1, jsSort_eq_insertionSort _ geId
      (fun a b => by simpa using desc_cmp_iff a b)]
    exact List.sorted_insertionSort geId _

/-- C10: on every local migration list and applied record set, revision 1's
separate `cmdUp`/`cmdDown` filter-and-sort logic computes the same work
list (same elements, same order) as revision 2's unified `migrateAll` for
the corresponding direction. -/
theorem worklist_v1_eq_v2 (L : List Migration) (A : List MigrationRecord) :
    cmdUpToRun L A = migrateAllToRun L A true
      ∧ cmdDownToRun L A = migrateAllToRun L A false := by
  constructor
  · have e1 : cmdUpToRun L A
        = jsSort (fun a b => (a.id : Int) - (b.id : Int))
          (L.filter (fun m => !((A.map (fun r => recordKey r.id r.name)).contains
              (recordKey m.id m.name)))) := rfl
    have e2 : migrateAllToRun L A true
        = jsSort (fun a b => if (true : Bool) then (a.id : Int) - (b.id : Int)
            else (b.id : Int) - (a.id : Int))
          (L.filter (fun m => ((A.map (fun r => recordKey r.id r.name)).contains
              (recordKey m.id m.name)) != true)) := rfl
    rw [e1, e2]
    have hf : L.filter (fun m => !((A.map (fun r => recordKey r.id r.name)).contains
            (recordKey m.id m.name)))
        = L.filter (fun m => ((A.map (fun r => recordKey r.id r.name)).contains
            (recordKey m.id m.name)) != true) :=
      List.filter_congr (fun m _ => (Bool.bne_true _).symm)
    rw [hf]
    exact jsSort_congr _ _ (fun a b => by simp) _
  · have e1 : cmdDownToRun L A
        = jsSort (fun a b => (b.id : Int) - (a.id : Int))
          (L.filter (fun m => (A.map (fun r => recordKey r.id r.name)).contains
              (recordKey m.id m.name))) := rfl
    have e2 : migrateAllToRun L A false
        = jsSort (fun a b => if (false : Bool) then (a.id : Int) - (b.id : Int)
            else (b.id : Int) - (a.id : Int))
          (L.filter (fun m => ((A.map (fun r => recordKey r.id r.name)).contains
              (recordKey m.id m.name)) != false)) := rfl
    rw [e1, e2]
    have hf : L.filter (fun m => (A.map (fun r => recordKey r.id r.name)).contains
            (recordKey m.id m.name))
        = L.filter (fun m => ((A.map (fun r => recordKey r.id r.name)).contains
            (recordKey m.id m.name)) != false) :=
      List.filter_congr (fun m _ => (Bool.bne_false _).symm)
    rw [hf]
    exact jsSort_congr _ _ (fun a b => by simp) _

/-! ### Transactional Executor (`migrate`, rev 1 lines 191–216, rev 2 lines 588–636)

Each work item runs in its own transaction: `BEGIN`, the opaque script
body, the bookkeeping statement, `COMMIT`; on any failure `ROLLBACK` and
`break`.  The `migration` table is the explicit state; the opaque script
bodies do not touch that table, so their success is an oracle `Bool`
carried with each item.  The bookkeeping statements are
`INSERT INTO migration (id, name, applied) VALUES (<id>, '<name>', default)`
— which fails exactly on a duplicate `id`, the table's sole primary key —
and `DELETE FROM migration WHERE id = <id>` — which never fails and
removes every row with that `id` (the `name` is not part of the filter). -/

/-- Effect of one work item's bookkeeping statement on the `migration`
table; `none` is a statement failure (primary-key violation). -/
def runBookkeeping (m : Migration) (now : Nat)
    (store : List MigrationRecord) : Option (List MigrationRecord) :=
  if m.up then
    if store.any (fun r => r.id == m.id) then none
    else some (store ++ [⟨m.id, m.name, now⟩])
  else
    some (store.filter (fun r => !(r.id == m.id)))

/-- Rows affected by one committed bookkeeping statement, as reported by
the driver: one inserted row for `up`, the number of rows matching the
`WHERE id =` clause for `down`. -/
def recordsChanged (m : Migration) (store : List MigrationRecord) : Nat :=
  if m.up then 1 else store.countP (fun r => r.id == m.id)

/-- The executor loop.  Returns the final table, one `Bool` per *attempted*
item (`true` = committed, `false` = rolled back) in order, and the total
number of records inserted or removed by the run.  A failure rolls the
current transaction back (the table is left as it was before the item)
and `break`s out of the loop. -/
def migrate (now : Nat) :
    List (Migration × Bool) → List MigrationRecord →
      List MigrationRecord × List Bool × Nat
  | [], store => (store, [], 0)
  | (m, scriptOk) :: rest, store =>
    if scriptOk then
      match runBookkeeping m now store with
      | some store2 =>
        match migrate now rest store2 with
        | (final, results, changed) =>
          (final, true :: results, recordsChanged m store + changed)
      | none => (store, [false], 0)
    else (store, [false], 0)

/-- C3 counterexample: work list whose first item is a backward migration
whose `DELETE` matches no row (it still commits, affecting 0 records) and
whose second (N = 2) item's script fails.  The run attempts exactly the
two items, commits the first, rolls back the second — but inserts/removes
0 records, not N − 1 = 1 as the claim states. -/
theorem migrate_nth_failure_counterexample :
    migrate 0
        [(⟨1000000000000, "a", "", false⟩, true),
         (⟨1000000000001, "b", "", true⟩, false)] []
      = ([], [true, false], 0) ∧ (0 : Nat) ≠ 2 - 1 := by
  constructor
  · rfl
  · decide

/-- C3 amended: if the first N−1 items of a work list all commit and the
Nth fails (script failure or bookkeeping failure), the executor rolls back
the Nth transaction (the table stays exactly as the first N−1 committed
items left it), reports exactly N attempts — so the items after the Nth
are never attempted and nothing is retried — and the records
inserted/removed by the run are exactly those of the first N−1 commits. -/
theorem migrate_fail_fast (now : Nat) (pre post : List (Migration × Bool))
    (f : Migration × Bool) (store store1 : List MigrationRecord) (changed : Nat)
    (hpre : migrate now pre store = (store1, List.replicate pre.length true, changed))
    (hfail : f.2 = false ∨ runBookkeeping f.1 now store1 = none) :
    migrate now (pre ++ f :: post) store
      = (store1, List.replicate pre.length true ++ [false], changed) := by
  induction pre generalizing store changed with
  | nil =>
    simp only [migrate, List.length_nil, List.replicate_zero, Prod.mk.injEq] at hpre
    obtain ⟨h1, _, h3⟩ := hpre
    subst h1
    subst h3
    obtain ⟨m, ok⟩ := f
    simp only [List.nil_append, List.length_nil, List.replicate_zero]
    rcases hfail with hf | hf
    · simp only at hf
      subst hf
      simp [migrate]
    · simp only at hf
      cases ok
      · simp [migrate]
      · simp [migrate, hf]
  | cons p pre ih =>
    obtain ⟨m, ok⟩ := p
    cases ok
    · simp only [migrate, Bool.false_eq_true, if_false, Prod.mk.injEq,
        List.length_cons, List.replicate_succ] at hpre
      exact absurd hpre.2.1 (by simp)
    · cases hbook : runBookkeeping m now store with
      | none =>
        simp only [migrate, if_true, hbook, List.length_cons,
          List.replicate_succ, Prod.mk.injEq] at hpre
        exact absurd hpre.2.1 (by simp)
      | some store2 =>
        rcases h2 : migrate now pre store2 with ⟨a, b, c⟩
        simp only [migrate, if_true, hbook, h2, List.length_cons,
          List.replicate_succ, Prod.mk.injEq] at hpre
        obtain ⟨ha, hb, hc⟩ := hpre
        obtain ⟨-, hbr⟩ := List.cons.inj hb
        subst ha
        rw [hbr] at h2
        have hrec := ih store2 c h2
        simp only [List.cons_append, migrate, if_true, hbook,
          List.length_cons, List.replicate_succ]
        rw [List.append_eq, hrec, ← hc]

/-- C5 counterexample: executing the backward migration
`(1000000000000, "mine")` against a table holding the single record
`(1000000000000, "other")` — same id, different name — deletes that
record (the `DELETE` filters on `id` alone), leaving the table empty,
while the claim promises it untouched. -/
theorem backward_delete_counterexample :
    migrate 0 [(⟨1000000000000, "mine", "", false⟩, true)]
        [⟨1000000000000, "other", 7⟩]
      = ([], [true], 1) ∧ ("other" : String) ≠ "mine" := by
  constructor
  · rfl
  · decide

/-- C5 amended: a backward work item's bookkeeping mutation commits and
deletes exactly the records whose `id` equals the migration's id,
regardless of their `name` (under the table's primary key at most one such
row exists); records with a different `id` are untouched. -/
theorem backward_delete_by_id (m : Migration) (now : Nat)
    (store : List MigrationRecord) (h : m.up = false) :
    (migrate now [(m, true)] store).2.1 = [true]
      ∧ ∀ r, r ∈ (migrate now [(m, true)] store).1
          ↔ r ∈ store ∧ r.id ≠ m.id := by
  have hb : runBookkeeping m now store
      = some (store.filter (fun r => !(r.id == m.id))) := by
    simp [runBookkeeping, h]
  constructor
  · simp [migrate, hb]
  · intro r
    simp [migrate, hb, List.mem_filter]

/-- Witness for the amended C5 theorem at a concrete backward migration,
table and record. -/
theorem backward_delete_by_id_witness :
    (migrate 0 [(⟨1000000000000, "mine", "", false⟩, true)]
        [⟨1000000000000, "other", 7⟩, ⟨999, "keep", 3⟩]).2.1 = [true]
      ∧ ((⟨999, "keep", 3⟩ : MigrationRecord)
            ∈ (migrate 0 [(⟨1000000000000, "mine", "", false⟩, true)]
              [⟨1000000000000, "other", 7⟩, ⟨999, "keep", 3⟩]).1
          ↔ (⟨999, "keep", 3⟩ : MigrationRecord)
              ∈ [(⟨1000000000000, "other", 7⟩ : MigrationRecord), ⟨999, "keep", 3⟩]
            ∧ (999 : Nat) ≠ 1000000000000) :=
  ⟨(backward_delete_by_id ⟨1000000000000, "mine", "", false⟩ 0
      [⟨1000000000000, "other", 7⟩, ⟨999, "keep", 3⟩] rfl).1,
   (backward_delete_by_id ⟨1000000000000, "mine", "", false⟩ 0
      [⟨1000000000000, "other", 7⟩, ⟨999, "keep", 3⟩] rfl).2 ⟨999, "keep", 3⟩⟩

/-- Witness for the fail-fast theorem: a three-item forward run whose
second item's script fails commits only the first item and never attempts
the third. -/
theorem migrate_fail_fast_witness :
    migrate 0
        [(⟨1000000000000, "a", "", true⟩, true),
         (⟨1000000000001, "b", "", true⟩, false),
         (⟨1000000000002, "c", "", true⟩, true)] []
      = ([⟨1000000000000, "a", 0⟩], List.replicate 1 true ++ [false], 1) :=
  migrate_fail_fast 0 [(⟨1000000000000, "a", "", true⟩, true)]
    [(⟨1000000000002, "c", "", true⟩, true)]
    (⟨1000000000001, "b", "", true⟩, false) [] [⟨1000000000000, "a", 0⟩] 1
    (by decide) (Or.inl rfl)

/-! ### Round trip: `up` then `down` (C4) -/

/-- The forward `Migration` of an authored `(id, name)` pair.  Script
bodies are opaque and never touch the `migration` table, so they are left
empty. -/
def mkUp (p : Nat × String) : Migration := ⟨p.1, p.2, "", true⟩

/-- The backward `Migration` of an authored `(id, name)` pair. -/
def mkDown (p : Nat × String) : Migration := ⟨p.1, p.2, "", false⟩

/-- Running the `up` command then the `down` command for the same authored
migration set, with every script succeeding: each command computes its
work list against the current table (`migrateAll`) and executes it.
Returns the final table and the per-attempt results of both runs. -/
def roundTrip (now : Nat) (pairs : List (Nat × String))
    (store0 : List MigrationRecord) :
    List MigrationRecord × List Bool × List Bool :=
  let upRun := migrateAllToRun (pairs.map mkUp) store0 true
  let r1 := migrate now (upRun.map (fun m => (m, true))) store0
  let downRun := migrateAllToRun (pairs.map mkDown) r1.1 false
  let r2 := migrate now (downRun.map (fun m => (m, true))) r1.1
  (r2.1, r1.2.1, r2.2.1)

theorem perm_any {β : Type*} {l l' : List β} (h : l.Perm l') (f : β → Bool) :
    l.any f = l'.any f := by
  cases hb : l'.any f
  · rw [List.any_eq_false] at hb ⊢
    exact fun x hx => hb x (h.mem_iff.mp hx)
  · rw [List.any_eq_true] at hb ⊢
    obtain ⟨x, hx, hf⟩ := hb
    exact ⟨x, h.mem_iff.mpr hx, hf⟩

/-- Executing forward items (all scripts succeeding) whose ids are fresh
for the table and mutually distinct commits all of them, appending one
record per item. -/
theorem migrate_all_up (now : Nat) :
    ∀ (ms : List Migration) (store : List MigrationRecord),
      (∀ m ∈ ms, m.up = true) →
      (ms.map Migration.id).Nodup →
      (∀ m ∈ ms, ∀ r ∈ store, r.id ≠ m.id) →
      migrate now (ms.map (fun m => (m, true))) store
        = (store ++ ms.map (fun m => ⟨m.id, m.name, now⟩),
           List.replicate ms.length true, ms.length)
  | [], store, _, _, _ => by simp [migrate]
  | m :: ms, store, hup, hnodup, hfresh => by
    have hm : m.up = true := hup m (by simp)
    have hany : store.any (fun r => r.id == m.id) = false := by
      rw [List.any_eq_false]
      intro r hr
      simpa using hfresh m (by simp) r hr
    have hbook : runBookkeeping m now store
        = some (store ++ [⟨m.id, m.name, now⟩]) := by
      simp [runBookkeeping, hm, hany]
    rw [List.map_cons, List.nodup_cons] at hnodup
    have hfresh2 : ∀ m' ∈ ms, ∀ r ∈ store ++ [(⟨m.id, m.name, now⟩ : MigrationRecord)],
        r.id ≠ m'.id := by
      intro m' hm' r hr
      rcases List.mem_append.mp hr with h | h
      · exact hfresh m' (by simp [hm']) r h
      · have hre : r = ⟨m.id, m.name, now⟩ := by simpa using h
        subst hre
        intro hc
        simp only at hc
        exact hnodup.1 (hc ▸ List.mem_map.mpr ⟨m', hm', rfl⟩)
    have hrec := migrate_all_up now ms (store ++ [⟨m.id, m.name, now⟩])
      (fun m' h => hup m' (by simp [h])) hnodup.2 hfresh2
    simp only [List.map_cons, migrate, if_true, hbook, hrec]
    simp [recordsChanged, hm, List.replicate_succ, Nat.add_comm]

/-- Executing backward items (all scripts succeeding) commits all of them
and keeps exactly the records whose id matches none of the items. -/
theorem migrate_all_down (now : Nat) :
    ∀ (ms : List Migration) (store : List MigrationRecord),
      (∀ m ∈ ms, m.up = false) →
      ∃ changed, migrate now (ms.map (fun m => (m, true))) store
        = (store.filter (fun r => !(ms.any (fun m' => r.id == m'.id))),
           List.replicate ms.length true, changed)
  | [], store, _ => ⟨0, by simp [migrate]⟩
  | m :: ms, store, hdown => by
    have hm : m.up = false := hdown m (by simp)
    have hbook : runBookkeeping m now store
        = some (store.filter (fun r => !(r.id == m.id))) := by
      simp [runBookkeeping, hm]
    obtain ⟨c, hrec⟩ := migrate_all_down now ms
      (store.filter (fun r => !(r.id == m.id)))
      (fun m' h => hdown m' (by simp [h]))
    refine ⟨store.countP (fun r => r.id == m.id) + c, ?_⟩
    simp only [List.map_cons, migrate, if_true, hbook, hrec]
    rw [List.filter_filter]
    have hfun : (fun (r : MigrationRecord) =>
          !(ms.any (fun m' => r.id == m'.id)) && !(r.id == m.id))
        = fun (r : MigrationRecord) => !((m :: ms).any (fun m' => r.id == m'.id)) := by
      funext r
      simp only [List.any_cons, Bool.not_or]
      exact Bool.and_comm _ _
    rw [hfun]
    simp [recordsChanged, hm, List.replicate_succ]

/-- C4 counterexample: a migration pair that is *already applied* in the
initial table.  The forward work list is empty, the backward work list
reverts the pair, and the table ends empty instead of being restored to
its original single-record content. -/
theorem roundtrip_counterexample :
    roundTrip 0 [(1000000000000, "a")] [⟨1000000000000, "a", 5⟩]
      = ([], [], [true])
    ∧ ([] : List MigrationRecord) ≠ [⟨1000000000000, "a", 5⟩] := by
  constructor
  · rfl
  · decide

/-- Unfolding equation for `migrateAllToRun`. -/
theorem migrateAllToRun_eq (L : List Migration) (A : List MigrationRecord) (up : Bool) :
    migrateAllToRun L A up
      = jsSort (fun a b => if up then (a.id : Int) - (b.id : Int)
          else (b.id : Int) - (a.id : Int))
        (L.filter (fun m => ((A.map (fun r => recordKey r.id r.name)).contains
            (recordKey m.id m.name)) != up)) := rfl

/-- C4 amended: running the full forward work list and then the full
backward work list for the same authored migration set restores the table
to exactly its original content, provided no script fails, the authored
ids are mutually distinct, and no authored id is already present in the
initial table.  (Without that last disjointness hypothesis the claim is
false — see the counterexample: an already-applied pair is reverted by the
`down` run and the original record is lost.) -/
theorem roundtrip_restores (now : Nat) (pairs : List (Nat × String))
    (store0 : List MigrationRecord)
    (hnodup : (pairs.map Prod.fst).Nodup)
    (hdisj : ∀ r ∈ store0, ∀ p ∈ pairs, r.id ≠ p.1) :
    (roundTrip now pairs store0).1 = store0 := by
  -- Step 1: the forward filter keeps every authored migration.
  have hupfilter : (pairs.map mkUp).filter
        (fun m => ((store0.map (fun r => recordKey r.id r.name)).contains
            (recordKey m.id m.name)) != true)
      = pairs.map mkUp := by
    rw [List.filter_eq_self]
    intro m hm
    obtain ⟨pp, hpp, rfl⟩ := List.mem_map.mp hm
    rw [Bool.bne_true, contains_eq_any]
    have hnone : store0.any
        (fun r => r.id == (mkUp pp).id && r.name == (mkUp pp).name) = false := by
      rw [List.any_eq_false]
      intro r hr
      simp [mkUp, hdisj r hr pp hpp]
    rw [hnone]
    rfl
  have hperm_up : (migrateAllToRun (pairs.map mkUp) store0 true).Perm (pairs.map mkUp) := by
    rw [migrateAllToRun_eq, hupfilter]
    exact jsSort_perm _ _
  -- Step 2: executing the forward work list appends one record per item.
  have hup_all : ∀ m ∈ migrateAllToRun (pairs.map mkUp) store0 true, m.up = true := by
    intro m hm
    obtain ⟨pp, _, rfl⟩ := List.mem_map.mp (hperm_up.mem_iff.mp hm)
    rfl
  have hids : ((migrateAllToRun (pairs.map mkUp) store0 true).map Migration.id).Nodup := by
    rw [(hperm_up.map Migration.id).nodup_iff, List.map_map]
    have hcomp : (Migration.id ∘ mkUp) = (Prod.fst : Nat × String → Nat) :=
      funext (fun p => rfl)
    rw [hcomp]
    exact hnodup
  have hfresh : ∀ m ∈ migrateAllToRun (pairs.map mkUp) store0 true,
      ∀ r ∈ store0, r.id ≠ m.id := by
    intro m hm r hr
    obtain ⟨pp, hpp, rfl⟩ := List.mem_map.mp (hperm_up.mem_iff.mp hm)
    exact hdisj r hr pp hpp
  have hr1 := migrate_all_up now (migrateAllToRun (pairs.map mkUp) store0 true)
    store0 hup_all hids hfresh
  have h1 : (migrate now ((migrateAllToRun (pairs.map mkUp) store0 true).map
        (fun m => (m, true))) store0).1
      = store0 ++ (migrateAllToRun (pairs.map mkUp) store0 true).map
          (fun m => (⟨m.id, m.name, now⟩ : MigrationRecord)) :=
    congrArg Prod.fst hr1
  have hRT : (roundTrip now pairs store0).1
      = (migrate now ((migrateAllToRun (pairs.map mkDown)
          (migrate now ((migrateAllToRun (pairs.map mkUp) store0 true).map
            (fun m => (m, true))) store0).1 false).map (fun m => (m, true)))
          (migrate now ((migrateAllToRun (pairs.map mkUp) store0 true).map
            (fun m => (m, true))) store0).1).1 := rfl
  rw [hRT, h1]
  set upRun := migrateAllToRun (pairs.map mkUp) store0 true with hupRunDef
  set NR := upRun.map (fun m => (⟨m.id, m.name, now⟩ : MigrationRecord)) with hNRdef
  set downRun := migrateAllToRun (pairs.map mkDown) (store0 ++ NR) false with hdownRunDef
  -- Step 3: every authored pair is now applied, so the backward filter
  -- keeps every backward migration.
  have hdownfilter : (pairs.map mkDown).filter
        (fun m => (((store0 ++ NR).map (fun r => recordKey r.id r.name)).contains
            (recordKey m.id m.name)) != false)
      = pairs.map mkDown := by
    rw [List.filter_eq_self]
    intro m hm
    obtain ⟨pp, hpp, rfl⟩ := List.mem_map.mp hm
    rw [Bool.bne_false, contains_eq_any, List.any_eq_true]
    refine ⟨⟨pp.1, pp.2, now⟩, ?_, by simp [mkDown]⟩
    refine List.mem_append.mpr (Or.inr ?_)
    rw [hNRdef]
    refine List.mem_map.mpr ⟨mkUp pp, ?_, rfl⟩
    exact hperm_up.mem_iff.mpr (List.mem_map.mpr ⟨pp, hpp, rfl⟩)
  have hperm_down : downRun.Perm (pairs.map mkDown) := by
    rw [hdownRunDef, migrateAllToRun_eq, hdownfilter]
    exact jsSort_perm _ _
  have hdown_all : ∀ m ∈ downRun, m.up = false := by
    intro m hm
    obtain ⟨pp, _, rfl⟩ := List.mem_map.mp (hperm_down.mem_iff.mp hm)
    rfl
  -- Step 4: executing the backward work list filters by id.
  obtain ⟨c, hr2⟩ := migrate_all_down now downRun (store0 ++ NR) hdown_all
  have h2 : (migrate now (downRun.map (fun m => (m, true))) (store0 ++ NR)).1
      = (store0 ++ NR).filter (fun r => !(downRun.any (fun m' => r.id == m'.id))) :=
    congrArg Prod.fst hr2
  rw [h2, List.filter_append]
  -- Step 5: original records survive the deletes, the new records do not.
  have hstore0 : store0.filter (fun r => !(downRun.any (fun m' => r.id == m'.id)))
      = store0 := by
    rw [List.filter_eq_self]
    intro r hr
    have hany : downRun.any (fun m' => r.id == m'.id) = false := by
      rw [perm_any hperm_down, List.any_eq_false]
      intro m hm
      obtain ⟨pp, hpp, rfl⟩ := List.mem_map.mp hm
      simp [mkDown, hdisj r hr pp hpp]
    rw [hany]
    rfl
  have hnew : NR.filter (fun r => !(downRun.any (fun m' => r.id == m'.id))) = [] := by
    rw [List.filter_eq_nil_iff]
    intro x hx
    rw [hNRdef] at hx
    obtain ⟨m, hm, hxeq⟩ := List.mem_map.mp hx
    obtain ⟨pp, hpp, hmeq⟩ := List.mem_map.mp (hperm_up.mem_iff.mp hm)
    have hxid : x.id = pp.1 := by
      rw [← hxeq, ← hmeq]
      rfl
    have hany : downRun.any (fun m' => x.id == m'.id) = true := by
      rw [perm_any hperm_down, List.any_eq_true]
      refine ⟨mkDown pp, List.mem_map.mpr ⟨pp, hpp, rfl⟩, ?_⟩
      rw [hxid]
      simp [mkDown]
    rw [hany]
    simp
  rw [hstore0, hnew, List.append_nil]

/-- Witness for the amended round-trip theorem: one fresh authored pair
over a table holding an unrelated record. -/
theorem roundtrip_restores_witness :
    (roundTrip 0 [(1000000000000, "a")] [⟨5, "z", 1⟩]).1 = [⟨5, "z", 1⟩] :=
  roundtrip_restores 0 [(1000000000000, "a")] [⟨5, "z", 1⟩]
    (by decide) (by decide)

/-! ### Migration Source: `findLocalMigrations` (rev 1 lines 136–166, rev 2 lines 533–563)

`findLocalMigrations(up)` matches every directory entry against
`/^(?<id>\d{13})-(?<name>.*)-(up\.sql)$/` (resp. `down.sql`), drops the
entries that do *not* match (`results.filter(notNull)`), and then reads
the file behind each match (`readLocalMigration`).  The
`throw new Error("Parse error")` branch only guards `match.groups` being
absent, which cannot happen for a successful match of a regex with named
groups.  The filesystem is an explicit partial map from file name to
content; `none` models an unreadable file, whose promise rejection
propagates out of the loop. -/

/-- The regex `/^(?<id>\d{13})-(?<name>.*)-(up\.sql)$/` (or `down.sql`) as
a structural parse: 13 digit characters, a `'-'`, a greedy `.*` name (any
characters except a newline), and the literal suffix; anchored on both
ends.  Returns the captured `id` (as parsed by `parseInt`) and `name`. -/
def parseMigrationFilename (up : Bool) (item : String) : Option (Nat × String) :=
  let sfx := if up then "-up.sql" else "-down.sql"
  let cs := item.data
  let nm := (cs.drop 14).take (cs.length - 14 - sfx.length)
  if 13 + 1 + sfx.length ≤ cs.length
      ∧ (cs.take 13).all Char.isDigit = true
      ∧ cs.get? 13 = some '-'
      ∧ cs.drop (cs.length - sfx.length) = sfx.data
      ∧ nm.all (fun c => c != '\n') = true
  then some (decodeDigits (cs.take 13), String.mk nm)
  else none

/-- Function `readLocalMigration` (rev 1 lines 119–134, rev 2 lines 516–531):
reads `migrations/<id>-<name>-(up|down).sql` and builds the `Migration`. -/
def readLocalMigration (fsRead : String → Option String) (i : Nat)
    (name : String) (up : Bool) : Option Migration :=
  match fsRead ("migrations/" ++ Nat.repr i ++ "-" ++ name ++ "-"
      ++ (if up then "up.sql" else "down.sql")) with
  | some s => some ⟨i, name, s, up⟩
  | none => none

/-- The `for (const { groups } of matches)` loop: reads each match's file
in order, failing on the first unreadable file. -/
def readMigrationsLoop (up : Bool) (fsRead : String → Option String) :
    List (Nat × String) → Except String (List Migration)
  | [] => Except.ok []
  | g :: gs =>
    match readLocalMigration fsRead g.1 g.2 up with
    | none => Except.error "read failure"
    | some m =>
      match readMigrationsLoop up fsRead gs with
      | Except.ok ms => Except.ok (m :: ms)
      | Except.error e => Except.error e

/-- Function `findLocalMigrations` over an explicit directory listing. -/
def findLocalMigrations (up : Bool) (listing : List String)
    (fsRead : String → Option String) : Except String (List Migration) :=
  readMigrationsLoop up fsRead
    ((listing.map (parseMigrationFilename up)).filterMap (fun x => x))

/-- C6 counterexample: a listing whose only entry does not match the
naming grammar.  `findLocalMigrations` succeeds with an empty migration
list — the entry is silently skipped — instead of failing with a
ParseError as the claim requires. -/
theorem findLocalMigrations_no_parse_error_counterexample :
    parseMigrationFilename true "garbage.txt" = none
      ∧ findLocalMigrations true ["garbage.txt"] (fun _ => none)
          = Except.ok [] := by
  constructor
  · rfl
  · rfl

/-- C6 amended: items that do not match the naming grammar for the
requested direction are silently skipped, never a ParseError: whenever
every file read succeeds, `findLocalMigrations` returns successfully with
exactly one migration per *matching* item, in listing order, each tagged
with the requested direction. -/
theorem findLocalMigrations_skips_nonmatching (up : Bool) (listing : List String)
    (fsRead : String → Option String) (hread : ∀ s, (fsRead s).isSome = true) :
    ∃ ms, findLocalMigrations up listing fsRead = Except.ok ms
      ∧ ms.map (fun m => (m.id, m.name))
          = (listing.map (parseMigrationFilename up)).filterMap (fun x => x)
      ∧ ∀ m ∈ ms, m.up = up := by
  rw [findLocalMigrations]
  generalize (listing.map (parseMigrationFilename up)).filterMap (fun x => x) = gs
  induction gs with
  | nil => exact ⟨[], rfl, rfl, by simp⟩
  | cons g gs ih =>
    obtain ⟨s, hs⟩ := Option.isSome_iff_exists.mp
      (hread ("migrations/" ++ Nat.repr g.1 ++ "-" ++ g.2 ++ "-"
        ++ (if up then "up.sql" else "down.sql")))
    obtain ⟨ms, hms, hmap, hup⟩ := ih
    refine ⟨⟨g.1, g.2, s, up⟩ :: ms, ?_, ?_, ?_⟩
    · simp only [readMigrationsLoop, readLocalMigration, hs, hms]
    · simp only [List.map_cons, hmap]
    · intro m hm
      rcases List.mem_cons.mp hm with h | h
      · rw [h]
      · exact hup m h

/-- Witness for the amended C6 theorem: one matching and one
non-matching entry over a total filesystem. -/
theorem findLocalMigrations_skips_nonmatching_witness :
    ∃ ms, findLocalMigrations true ["notes.md", "1000000000000-a-up.sql"]
        (fun _ => some "CREATE TABLE t ();") = Except.ok ms
      ∧ ms.map (fun m => (m.id, m.name))
          = (["notes.md", "1000000000000-a-up.sql"].map
              (parseMigrationFilename true)).filterMap (fun x => x)
      ∧ ∀ m ∈ ms, m.up = true :=
  findLocalMigrations_skips_nonmatching true
    ["notes.md", "1000000000000-a-up.sql"]
    (fun _ => some "CREATE TABLE t ();") (fun _ => rfl)

/-! ### Single revert: `cmdRevert` (rev 1 lines 292–317, rev 2 lines 687–716) -/

/-- Function `fetchMigrationHeadRecord`:
`SELECT * FROM migration ORDER BY id DESC LIMIT 1`. -/
def fetchMigrationHeadRecord (records : List MigrationRecord) :
    Option MigrationRecord :=
  (jsSort (fun a b => (b.id : Int) - (a.id : Int)) records).head?

/-- Command `revert`: fetches the head record; if none, logs and returns (a
no-op success).  Otherwise reads the head's backward script and executes
it as a one-item work list.  Returns the work list, the final table and
the per-attempt results. -/
def cmdRevert (records : List MigrationRecord) (fsRead : String → Option String)
    (scriptOk : Migration → Bool) (now : Nat) :
    Except String (List Migration × List MigrationRecord × List Bool) :=
  match fetchMigrationHeadRecord records with
  | none => Except.ok ([], records, [])
  | some head =>
    match readLocalMigration fsRead head.id head.name false with
    | none => Except.error "read failure"
    | some m =>
      match migrate now [(m, scriptOk m)] records with
      | (final, results, _) => Except.ok ([m], final, results)

/-- C7: single revert against an empty Applied-State Store: the head query
returns no record, the work list is empty, no database mutation happens
(the table stays empty) and the command returns successfully. -/
theorem revert_empty_store_noop (fsRead : String → Option String)
    (scriptOk : Migration → Bool) (now : Nat) :
    cmdRevert [] fsRead scriptOk now = Except.ok ([], [], []) := rfl

/-! ### Status Reporter: `cmdStatus` (rev 1 lines 319–347, rev 2 lines 718–743) -/

/-- A JS `new Set([...])` over numbers: deduplication keeping the first
occurrence, iterated in insertion order (`ids.keys()`). -/
def jsSetOfList (l : List Nat) : List Nat :=
  l.foldl (fun acc x => if acc.contains x then acc else acc ++ [x]) []

/-- One status row for an id: `records.find` / `localMigrations.find`,
`name = record?.name ?? localMigration?.name`, and
`applied = !!record?.applied`.  slonik's default type parser reads the
`timestamptz` column via `Date.parse`, so `applied` reaches this code as
a Unix-millisecond *number* (despite the `Date` type annotation): the
double negation is false when the record is absent and also when that
number is `0` (the epoch). -/
def statusRow (records : List MigrationRecord) (localMigrations : List Migration)
    (i : Nat) : Nat × Option String × Bool :=
  let localMigration := localMigrations.find? (fun l => l.id == i)
  let record := records.find? (fun r => r.id == i)
  let name := match record with
    | some r => some r.name
    | none => localMigration.map (fun l => l.name)
  let applied := match record with
    | some r => r.applied != 0
    | none => false
  (i, name, applied)

/-- The status report: one row per id of
`new Set([...records.map(r => r.id), ...localMigrations.map(m => m.id)])`. -/
def statusRows (records : List MigrationRecord)
    (localMigrations : List Migration) : List (Nat × Option String × Bool) :=
  (jsSetOfList (records.map (fun r => r.id)
    ++ localMigrations.map (fun m => m.id))).map (statusRow records localMigrations)

/-- The lines written to stdout: `${id}-${name} applied: ${applied}`
(an absent name would print as `undefined`). -/
def statusLines (records : List MigrationRecord)
    (localMigrations : List Migration) : List String :=
  (statusRows records localMigrations).map (fun row =>
    Nat.repr row.1 ++ "-"
      ++ (match row.2.1 with | some n => n | none => "undefined")
      ++ " applied: " ++ (if row.2.2 then "true" else "false"))

theorem jsSetFold_mem (l : List Nat) :
    ∀ (acc : List Nat) (i : Nat),
      i ∈ l.foldl (fun acc x => if acc.contains x then acc else acc ++ [x]) acc
        ↔ i ∈ acc ∨ i ∈ l := by
  induction l with
  | nil => intro acc i; simp
  | cons x l ih =>
    intro acc i
    simp only [List.foldl_cons]
    by_cases hx : x ∈ acc
    · rw [if_pos (List.elem_iff.mpr hx), ih]
      constructor
      · rintro (h1 | h1)
        · exact Or.inl h1
        · exact Or.inr (List.mem_cons_of_mem x h1)
      · rintro (h1 | h1)
        · exact Or.inl h1
        · rcases List.mem_cons.mp h1 with h2 | h2
          · exact Or.inl (h2 ▸ hx)
          · exact Or.inr h2
    · rw [if_neg (fun hc => hx (List.elem_iff.mp hc)), ih]
      simp only [List.mem_append, List.mem_singleton, List.mem_cons]
      tauto

theorem jsSetFold_nodup (l : List Nat) :
    ∀ acc : List Nat, acc.Nodup →
      (l.foldl (fun acc x => if acc.contains x then acc else acc ++ [x]) acc).Nodup := by
  induction l with
  | nil => intro acc h; simpa using h
  | cons x l ih =>
    intro acc h
    simp only [List.foldl_cons]
    by_cases hx : x ∈ acc
    · rw [if_pos (List.elem_iff.mpr hx)]
      exact ih acc h
    · rw [if_neg (fun hc => hx (List.elem_iff.mp hc))]
      refine ih _ ?_
      rw [List.nodup_append]
      refine ⟨h, List.nodup_singleton x, ?_⟩
      intro a ha hb
      rw [List.mem_singleton] at hb
      subst hb
      exact hx ha

theorem jsSetOfList_mem (l : List Nat) (i : Nat) :
    i ∈ jsSetOfList l ↔ i ∈ l := by
  rw [jsSetOfList, jsSetFold_mem]
  simp

theorem jsSetOfList_nodup (l : List Nat) : (jsSetOfList l).Nodup :=
  jsSetFold_nodup l [] List.nodup_nil

theorem statusRow_fst (records : List MigrationRecord)
    (localMigrations : List Migration) (i : Nat) :
    (statusRow records localMigrations i).1 = i := rfl

theorem statusRow_applied_some (records : List MigrationRecord)
    (localMigrations : List Migration) (i : Nat) (r0 : MigrationRecord)
    (h : records.find? (fun r => r.id == i) = some r0) :
    (statusRow records localMigrations i).2.2 = (r0.applied != 0) := by
  simp [statusRow, h]

theorem statusRow_applied_none (records : List MigrationRecord)
    (localMigrations : List Migration) (i : Nat)
    (h : records.find? (fun r => r.id == i) = none) :
    (statusRow records localMigrations i).2.2 = false := by
  simp [statusRow, h]

theorem statusRow_name_some (records : List MigrationRecord)
    (localMigrations : List Migration) (i : Nat) (r0 : MigrationRecord)
    (h : records.find? (fun r => r.id == i) = some r0) :
    (statusRow records localMigrations i).2.1 = some r0.name := by
  simp [statusRow, h]

theorem statusRow_name_none (records : List MigrationRecord)
    (localMigrations : List Migration) (i : Nat)
    (h : records.find? (fun r => r.id == i) = none) :
    (statusRow records localMigrations i).2.1
      = (localMigrations.find? (fun l => l.id == i)).map (fun l => l.name) := by
  simp [statusRow, h]

/-- C8 counterexample: at the claim's own instance taken with `t0 = 0`
(the epoch), the record `(1001, "init", 0)` exists, yet `!!0` is false —
slonik delivers `applied` as a Unix-millisecond number — so the program
prints `applied: false`, falsifying the applied-iff-exists clause and the
claim's expected first output line `1001-init applied: true`. -/
theorem status_applied_zero_counterexample :
    statusLines [⟨1001, "init", 0⟩]
        [⟨1001, "init", "", true⟩, ⟨1002, "add_index", "", true⟩]
      = ["1001-init applied: false", "1002-add_index applied: false"]
      ∧ ∃ r ∈ [(⟨1001, "init", 0⟩ : MigrationRecord)], r.id = 1001 := by
  refine ⟨rfl, ⟨1001, "init", 0⟩, by simp, rfl⟩

/-- C8 amended: the status report has exactly one row per id in the union
of the applied-record ids and the local forward-migration ids; a row's
applied flag is true iff an applied record with that id exists *and* its
`applied` timestamp is truthy, i.e. a non-zero Unix-millisecond number
(the flag is `!!record?.applied` and slonik delivers the column as a
number); a row's name is the remote record's name when a record exists,
otherwise the local migration's name.  For the claim's concrete example
taken at a non-zero `t0` the two stated lines are printed; at `t0 = 0`
the code prints `applied: false` (see the counterexample). -/
theorem status_report_truthiness :
    (∀ (records : List MigrationRecord) (localMigrations : List Migration),
      (records.map (fun r => r.id)).Nodup →
      (localMigrations.map (fun m => m.id)).Nodup →
      ((∀ i, i ∈ (statusRows records localMigrations).map (fun row => row.1)
          ↔ ((∃ r ∈ records, r.id = i) ∨ (∃ m ∈ localMigrations, m.id = i)))
        ∧ ((statusRows records localMigrations).map (fun row => row.1)).Nodup
        ∧ (∀ row ∈ statusRows records localMigrations,
            (row.2.2 = true ↔ ∃ r ∈ records, r.id = row.1 ∧ r.applied ≠ 0))
        ∧ (∀ row ∈ statusRows records localMigrations, ∀ r ∈ records,
            r.id = row.1 → row.2.1 = some r.name)
        ∧ (∀ row ∈ statusRows records localMigrations,
            (∀ r ∈ records, r.id ≠ row.1) →
              ∀ m ∈ localMigrations, m.id = row.1 → row.2.1 = some m.name)))
    ∧ statusLines [⟨1001, "init", 1633036800000⟩]
        [⟨1001, "init", "", true⟩, ⟨1002, "add_index", "", true⟩]
      = ["1001-init applied: true", "1002-add_index applied: false"] := by
  constructor
  · intro records localMigrations hrn hln
    have hfst : (statusRows records localMigrations).map (fun row => row.1)
        = jsSetOfList (records.map (fun r => r.id)
            ++ localMigrations.map (fun m => m.id)) := by
      rw [statusRows, List.map_map]
      have hcomp : ((fun (row : Nat × Option String × Bool) => row.1)
          ∘ statusRow records localMigrations) = id := funext (fun i => rfl)
      rw [hcomp, List.map_id]
    refine ⟨?_, ?_, ?_, ?_, ?_⟩
    · intro i
      rw [hfst, jsSetOfList_mem, List.mem_append]
      simp [List.mem_map]
    · rw [hfst]
      exact jsSetOfList_nodup _
    · intro row hrow
      obtain ⟨i, _, rfl⟩ := List.mem_map.mp hrow
      rw [statusRow_fst]
      cases hfind : records.find? (fun r => r.id == i) with
      | none =>
        rw [statusRow_applied_none records localMigrations i hfind]
        rw [List.find?_eq_none] at hfind
        simp only [Bool.false_eq_true, false_iff]
        rintro ⟨r, hr, hid, -⟩
        exact hfind r hr (by simp [hid])
      | some r0 =>
        rw [statusRow_applied_some records localMigrations i r0 hfind]
        have h1 : r0 ∈ records := List.mem_of_find?_eq_some hfind
        have h2 : r0.id = i := by simpa using List.find?_some hfind
        constructor
        · intro hb
          refine ⟨r0, h1, h2, ?_⟩
          simpa using hb
        · rintro ⟨r, hr, hid, hap⟩
          have hrr : r = r0 := List.inj_on_of_nodup_map hrn hr h1 (by rw [hid, h2])
          subst hrr
          simpa using hap
    · intro row hrow r hr hid
      obtain ⟨i, _, rfl⟩ := List.mem_map.mp hrow
      rw [statusRow_fst] at hid
      have hsome : (records.find? (fun x => x.id == i)).isSome = true := by
        rw [List.find?_isSome]
        exact ⟨r, hr, by simp [hid]⟩
      obtain ⟨r0, hr0⟩ := Option.isSome_iff_exists.mp hsome
      rw [statusRow_name_some records localMigrations i r0 hr0]
      have h1 : r0 ∈ records := List.mem_of_find?_eq_some hr0
      have h2 : r0.id = i := by simpa using List.find?_some hr0
      have hrr : r = r0 := List.inj_on_of_nodup_map hrn hr h1 (by rw [hid, h2])
      rw [hrr]
    · intro row hrow hnone m hm hid
      obtain ⟨i, _, rfl⟩ := List.mem_map.mp hrow
      rw [statusRow_fst] at hid hnone
      have hfn : records.find? (fun x => x.id == i) = none := by
        rw [List.find?_eq_none]
        intro x hx
        simp [hnone x hx]
      rw [statusRow_name_none records localMigrations i hfn]
      have hsome : (localMigrations.find? (fun l => l.id == i)).isSome = true := by
        rw [List.find?_isSome]
        exact ⟨m, hm, by simp [hid]⟩
      obtain ⟨m0, hm0⟩ := Option.isSome_iff_exists.mp hsome
      rw [hm0]
      have h1 : m0 ∈ localMigrations := List.mem_of_find?_eq_some hm0
      have h2 : m0.id = i := by simpa using List.find?_some hm0
      have hmm : m = m0 := List.inj_on_of_nodup_map hln hm h1 (by rw [hid, h2])
      rw [hmm]
      rfl
  · rfl

/-- Witness for C8's amended general part at the example input with a
non-zero timestamp. -/
theorem status_report_truthiness_witness :
    ((statusRows [⟨1001, "init", 1633036800000⟩]
        [⟨1001, "init", "", true⟩, ⟨1002, "add_index", "", true⟩]).map
      (fun row => row.1)).Nodup :=
  (status_report_truthiness.1 [⟨1001, "init", 1633036800000⟩]
    [⟨1001, "init", "", true⟩, ⟨1002, "add_index", "", true⟩]
    (by decide) (by decide)).2.1

/-! ### The required database-name option (C9)

Both revisions check `options.dbname` before any pool is created.

* Revision 2 (`assertDatabaseNameOption`, lines 498–506) calls
  `process.exit(-1)`; an `Except.error c` models the process terminating
  with exit code `c` at that point.
* Revision 1 (`cmdUp` lines 223–226 and the analogous checks in
  `cmdDown`/`cmdRevert`/`cmdStatus`) logs and returns
  `program.outputHelp({ error: true })` — commander's `outputHelp` prints
  the help text and *returns* (unlike `program.help`, it does not exit),
  so the command ends normally without connecting and `main`'s
  `process.exit(0)` runs.

A gate returns `Except.ok connected`, where `connected` says whether the
command proceeds to create a connection pool. -/

structure Options where
  host : String
  port : Nat
  username : String
  password : Option String
  dbname : Option String
deriving DecidableEq

/-- JS truthiness test `!options.dbname` for `string | undefined`:
`undefined` and the empty string are falsy. -/
def dbnameFalsy (options : Options) : Bool :=
  match options.dbname with
  | none => true
  | some s => s == ""

/-- Rev 2 `assertDatabaseNameOption`: `process.exit(-1)` when the dbname
option is missing. -/
def assertDatabaseNameOption (options : Options) : Except Int Unit :=
  if dbnameFalsy options then Except.error (-1) else Except.ok ()

/-- Rev 2 `migrateAll` prologue (serving `cmdUp` and `cmdDown`):
`findLocalMigrations` touches only the filesystem, then
`assertDatabaseNameOption` runs, and only afterwards is a pool created. -/
def migrateAllGate (options : Options) : Except Int Bool :=
  match assertDatabaseNameOption options with
  | Except.error c => Except.error c
  | Except.ok () => Except.ok true

/-- Rev 2 `cmdRevert` prologue. -/
def cmdRevertGateV2 (options : Options) : Except Int Bool :=
  match assertDatabaseNameOption options with
  | Except.error c => Except.error c
  | Except.ok () => Except.ok true

/-- Rev 2 `cmdStatus` prologue. -/
def cmdStatusGateV2 (options : Options) : Except Int Bool :=
  match assertDatabaseNameOption options with
  | Except.error c => Except.error c
  | Except.ok () => Except.ok true

/-- Rev 1 `cmdUp` prologue: on a missing dbname it prints help and
returns without connecting; no exit is raised. -/
def cmdUpGateV1 (options : Options) : Except Int Bool :=
  if dbnameFalsy options then Except.ok false else Except.ok true

/-- Rev 1 `cmdDown` prologue. -/
def cmdDownGateV1 (options : Options) : Except Int Bool :=
  if dbnameFalsy options then Except.ok false else Except.ok true

/-- Rev 1 `cmdRevert` prologue. -/
def cmdRevertGateV1 (options : Options) : Except Int Bool :=
  if dbnameFalsy options then Except.ok false else Except.ok true

/-- Rev 1 `cmdStatus` prologue. -/
def cmdStatusGateV1 (options : Options) : Except Int Bool :=
  if dbnameFalsy options then Except.ok false else Except.ok true

/-- Function `main`: `program.parseAsync()` then `process.exit(0)`; an exit raised
inside a command short-circuits with its own code. -/
def mainExitCode (r : Except Int Bool) : Int :=
  match r with
  | Except.ok _ => 0
  | Except.error c => c

/-- C9 counterexample: in revision 1, `up` with no database name aborts
before connecting but the process exits with code 0, not a non-zero
code — `outputHelp` returns and `main` reaches `process.exit(0)`. -/
theorem missing_dbname_counterexample :
    cmdUpGateV1 ⟨"localhost", 5432, "postgres", none, none⟩ = Except.ok false
      ∧ mainExitCode (cmdUpGateV1 ⟨"localhost", 5432, "postgres", none, none⟩)
          = 0 := by
  constructor
  · rfl
  · rfl

/-- C9 amended: with the database-name option missing, every command of
both revisions aborts before attempting to connect; in revision 2 the
process terminates with exit code −1 (non-zero), while in revision 1 the
commands print help and the process exits 0. -/
theorem missing_dbname_behavior (o : Options) (h : o.dbname = none) :
    (migrateAllGate o = Except.error (-1)
      ∧ cmdRevertGateV2 o = Except.error (-1)
      ∧ cmdStatusGateV2 o = Except.error (-1)
      ∧ mainExitCode (migrateAllGate o) = -1
      ∧ ((-1 : Int) ≠ 0))
    ∧ (cmdUpGateV1 o = Except.ok false
      ∧ cmdDownGateV1 o = Except.ok false
      ∧ cmdRevertGateV1 o = Except.ok false
      ∧ cmdStatusGateV1 o = Except.ok false
      ∧ mainExitCode (cmdUpGateV1 o) = 0) := by
  have hf : dbnameFalsy o = true := by
    rw [dbnameFalsy, h]
  refine ⟨⟨?_, ?_, ?_, ?_, by decide⟩, ?_, ?_, ?_, ?_, ?_⟩ <;>
    simp [migrateAllGate, cmdRevertGateV2, cmdStatusGateV2,
      assertDatabaseNameOption, cmdUpGateV1, cmdDownGateV1, cmdRevertGateV1,
      cmdStatusGateV1, mainExitCode, hf]

/-- Witness for the amended C9 theorem at concrete default options. -/
theorem missing_dbname_behavior_witness :
    (migrateAllGate ⟨"localhost", 5432, "postgres", none, none⟩
        = Except.error (-1)
      ∧ cmdRevertGateV2 ⟨"localhost", 5432, "postgres", none, none⟩
          = Except.error (-1)
      ∧ cmdStatusGateV2 ⟨"localhost", 5432, "postgres", none, none⟩
          = Except.error (-1)
      ∧ mainExitCode (migrateAllGate ⟨"localhost", 5432, "postgres", none, none⟩)
          = -1
      ∧ ((-1 : Int) ≠ 0))
    ∧ (cmdUpGateV1 ⟨"localhost", 5432, "postgres", none, none⟩ = Except.ok false
      ∧ cmdDownGateV1 ⟨"localhost", 5432, "postgres", none, none⟩ = Except.ok false
      ∧ cmdRevertGateV1 ⟨"localhost", 5432, "postgres", none, none⟩ = Except.ok false
      ∧ cmdStatusGateV1 ⟨"localhost", 5432, "postgres", none, none⟩ = Except.ok false
      ∧ mainExitCode (cmdUpGateV1 ⟨"localhost", 5432, "postgres", none, none⟩) = 0) :=
  missing_dbname_behavior ⟨"localhost", 5432, "postgres", none, none⟩ rfl

end Yamig
